import Mathlib

/-!
Shallow embedding of the nellis_notifier repository (files
nellis_monitor.py and nellis_monitor_playwright.py).

Python strings are modeled as lists of characters (abbrev Str).
Python dicts are modeled as association lists with distinct keys kept in
insertion order; dict lookup, dict.get and dict assignment are the
functions lkp, getD and setEntry below.

Boundary conventions (each noted again at the definition it concerns):
- the network fetch and the in-browser DOM evaluation are inputs
  (a FetchOutcome value, respectively fields of a Page value);
- SHA-1 hex digests (stable_id) and the current timestamp (now_rfc2822)
  are passed in as function parameters: they are deterministic values
  produced at the I/O boundary and their internals carry no logic;
- the character classes of the regexes (Python \d, \s and IGNORECASE)
  are modeled with Char.isDigit, Char.isWhitespace and Char.toLower,
  i.e. over the ASCII range the source's regexes operate on.
-/

abbrev Str := List Char

/-- Association-list lookup: Python dict indexing (keys are unique). -/
def lkp (k : Str) : List (Str × α) → Option α
  | [] => none
  | (k₁, v) :: rest => if k₁ = k then some v else lkp k rest

/-- Python dict assignment d[k] = v: replace in place, else append. -/
def setEntry (m : List (Str × Int)) (k : Str) (v : Int) : List (Str × Int) :=
  match m with
  | [] => [(k, v)]
  | (k₁, v₁) :: rest => if k₁ = k then (k₁, v) :: rest else (k₁, v₁) :: setEntry rest k v

/-- xml.sax.saxutils.escape of one character: replaces the three XML
reserved characters and leaves everything else alone. -/
def escChar (c : Char) : Str :=
  if c = '&' then ("&amp;").toList
  else if c = '<' then ("&lt;").toList
  else if c = '>' then ("&gt;").toList
  else [c]

/-- xml.sax.saxutils.escape (default entity table). -/
def xmlEscape : Str → Str
  | [] => []
  | c :: rest => escChar c ++ xmlEscape rest

/-- "\n".join(parts). -/
def joinNl : List Str → Str
  | [] => []
  | [p] => p
  | p :: ps => p ++ '\n' :: joinNl ps

/-- Number of raw left-angle-bracket characters in a string: the
measure used to certify which fields are escaped. -/
def countLt : Str → Nat
  | [] => 0
  | c :: rest => (if c = '<' then 1 else 0) + countLt rest

namespace Monitor

/-! Embedding of nellis_monitor.py (scalar mode). -/

/-- Case-insensitive literal match of a pattern at the head of the text
(IGNORECASE on an ASCII literal). -/
def startsWithCI : Str → Str → Bool
  | [], _ => true
  | _ :: _, [] => false
  | p :: ps, c :: cs => p.toLower = c.toLower && startsWithCI ps cs

/-- Decimal digit run to a number, int(m.group(1)). -/
def digitsToNat (ds : Str) : Nat :=
  ds.foldl (fun a c => 10 * a + (c.toNat - 48)) 0

/-- Attempt to match COUNT_RE = (\d+)\s+items\s+found (IGNORECASE) at the
head of the text.  Because a digit is never whitespace and whitespace is
never the letter i or f, the greedy runs of the regex are forced, so the
match is this deterministic scan. -/
def matchCountAt (l : Str) : Option Nat :=
  let ds := l.takeWhile Char.isDigit
  if ds = [] then none else
  let r₁ := (l.dropWhile Char.isDigit)
  let ws₁ := r₁.takeWhile Char.isWhitespace
  if ws₁ = [] then none else
  let r₂ := r₁.dropWhile Char.isWhitespace
  if startsWithCI (("items").toList) r₂ then
    let r₃ := r₂.drop 5
    let ws₂ := r₃.takeWhile Char.isWhitespace
    if ws₂ = [] then none else
    let r₄ := r₃.dropWhile Char.isWhitespace
    if startsWithCI (("found").toList) r₄ then some (digitsToNat ds) else none
  else none

/-- COUNT_RE.search: leftmost match anywhere in the page text. -/
def findCount : Str → Option Nat
  | [] => none
  | c :: rest =>
    match matchCountAt (c :: rest) with
    | some n => some n
    | none => findCount rest

/-- Outcome of session.get plus raise_for_status: failure covers a
transport error, a timeout and a non-success HTTP status (all raise and
are caught by the except arm of fetch_count); success carries the
response text and the resolved URL resp.url. -/
inductive FetchOutcome where
  | failure
  | success (html : Str) (finalUrl : Str)

/-- fetch_count: (count, final_url); count is None exactly on failure,
and a page without the count pattern yields 0, not a failure. -/
def fetch_count : FetchOutcome → Option Nat × Option Str
  | .failure => (none, none)
  | .success html u =>
    match findCount html with
    | none => (some 0, some u)
    | some n => (some n, some u)

/-- A JSON value as json.load can produce it inside the state object.
jnum covers JSON numbers that parse to Python int. -/
inductive Jval where
  | jint (n : Int)
  | jstr (s : Str)
  | jbool (b : Bool)
  | jnull
  | jarr
  | jobj
deriving DecidableEq

/-- Python int("...") on a string: optional surrounding whitespace,
optional sign, then a nonempty digit run (underscored literals are not
modeled; no state file written by this program contains strings). -/
def parsePyInt (s : Str) : Option Int :=
  let t := (s.dropWhile Char.isWhitespace).reverse.dropWhile Char.isWhitespace |>.reverse
  match t with
  | '-' :: ds => if ds ≠ [] ∧ ds.all Char.isDigit then some (-(digitsToNat ds : Int)) else none
  | '+' :: ds => if ds ≠ [] ∧ ds.all Char.isDigit then some ((digitsToNat ds : Int)) else none
  | ds => if ds ≠ [] ∧ ds.all Char.isDigit then some ((digitsToNat ds : Int)) else none

/-- Python int(v) on a JSON value: succeeds on ints and bools, on
numeric strings, and raises (none) on null, arrays and objects. -/
def jvalToInt : Jval → Option Int
  | .jint n => some n
  | .jstr s => parsePyInt s
  | .jbool b => some (if b then 1 else 0)
  | .jnull => none
  | .jarr => none
  | .jobj => none

/-- The state file as load_state sees it: absent, present but not valid
JSON (json.load raises), or parsed as a JSON object with string keys. -/
inductive StateFile where
  | missing
  | badJson
  | parsed (entries : List (Str × Jval))

/-- The dict comprehension {k: int(v) for k, v in data.items()}: the
whole comprehension raises as soon as one int() conversion fails. -/
def convEntries : List (Str × Jval) → Option (List (Str × Int))
  | [] => some []
  | (k, v) :: rest =>
    match jvalToInt v with
    | none => none
    | some n =>
      match convEntries rest with
      | none => none
      | some l => some ((k, n) :: l)

/-- load_state: missing file or any exception (bad JSON, failed int()
conversion) yields the empty map; otherwise the converted entries. -/
def load_state : StateFile → List (Str × Int)
  | .missing => []
  | .badJson => []
  | .parsed es =>
    match convEntries es with
    | none => []
    | some l => l

/-- Code-point lexicographic string comparison (Python str <=). -/
def strLe : Str → Str → Bool
  | [], _ => true
  | _ :: _, [] => false
  | a :: as, b :: bs => if a = b then strLe as bs else decide (a < b)

/-- Insert into a list sorted by le (one step of the key sort that
json.dump sort_keys=True performs). -/
def insBy (le : α → α → Bool) (a : α) : List α → List α
  | [] => [a]
  | b :: bs => if le a b then a :: b :: bs else b :: insBy le a bs

/-- Insertion sort by le. -/
def sortBy (le : α → α → Bool) : List α → List α
  | [] => []
  | a :: as => insBy le a (sortBy le as)

/-- save_state: json.dump(state, f, indent=2, sort_keys=True) writes a
JSON object whose entries are the state's entries, keys sorted, values
serialized as JSON ints. -/
def save_state (m : List (Str × Int)) : StateFile :=
  .parsed ((sortBy (fun a b => strLe a.1 b.1) m).map (fun kv => (kv.1, Jval.jint kv.2)))

/-- The alert decision of check_once (lines 163-168): pure function of
the last count, the current count and ALERT_ON_TRANSITION_ONLY. -/
def shouldAlert (last : Int) (count : Nat) (transitionOnly : Bool) : Bool :=
  if 0 < count then
    if transitionOnly then decide (last = 0) else true
  else false

/-- state.get(url, 0): the last-observed count, 0 when absent. -/
def lastOf (state : List (Str × Int)) (url : Str) : Int :=
  (lkp url state).getD 0

/-- One RSS item of the scalar monitor. -/
structure RssItem where
  title : Str
  link : Str
  guid : Str
  description : Str
  pubDate : Str
deriving DecidableEq

/-- The observable outcome of one check_once run: alerts printed
(url, count), the rss_items list, and the state that gets saved. -/
structure RunOut where
  alerts : List (Str × Nat)
  items : List RssItem
  state : List (Str × Int)
deriving DecidableEq

/-- The RSS item check_once appends when count > 0.  sid is stable_id
(a SHA-1 hex digest, deterministic; passed in as a parameter), now and
date are now_rfc2822() and datetime.now().date() of this run. -/
def mkScalarItem (sid : Str → Str) (now date : Str) (name url : Str)
    (fu : Option Str) (c : Nat) : RssItem :=
  { title := name ++ (" â€” ").toList ++ (Nat.repr c).data ++ (" results available").toList
    link := match fu with
            | some u => if u = [] then url else u
            | none => url
    guid := sid (url ++ ('|' :: (Nat.repr c).data) ++ ('|' :: date))
    description := (Nat.repr c).data ++
      (" items found for this search. Open link to view results.").toList
    pubDate := now }

/-- The per-URL loop of check_once (lines 153-184): env gives each URL's
fetch outcome, names is NAMES, policy is ALERT_ON_TRANSITION_ONLY.  A
failed fetch (count None) skips the URL and leaves the state untouched;
a successful fetch decides the alert, optionally appends an RSS item,
and assigns state[url] = count. -/
def check_once (env : Str → FetchOutcome) (names : List (Str × Str)) (sid : Str → Str)
    (now date : Str) (policy : Bool) : List Str → List (Str × Int) → RunOut
  | [], state => { alerts := [], items := [], state := state }
  | url :: rest, state =>
    let name := (lkp url names).getD url
    match fetch_count (env url) with
    | (none, _) => check_once env names sid now date policy rest state
    | (some c, fu) =>
      let alert := shouldAlert (lastOf state url) c policy
      let out := check_once env names sid now date policy rest (setEntry state url c)
      { alerts := (if alert then [(url, c)] else []) ++ out.alerts
        items := (if 0 < c then [mkScalarItem sid now date name url fu c] else []) ++ out.items
        state := out.state }

/-- The parts appended for one item by build_rss of nellis_monitor.py:
every field goes through xml_escape. -/
def itemParts (it : RssItem) : List Str :=
  [("<item>").toList,
   ("<title>").toList ++ xmlEscape it.title ++ ("</title>").toList,
   ("<link>").toList ++ xmlEscape it.link ++ ("</link>").toList,
   ("<guid isPermaLink=\"false\">").toList ++ xmlEscape it.guid ++ ("</guid>").toList,
   ("<description>").toList ++ xmlEscape it.description ++ ("</description>").toList,
   ("<pubDate>").toList ++ xmlEscape it.pubDate ++ ("</pubDate>").toList,
   ("</item>").toList]

/-- build_rss of nellis_monitor.py: every field, channel metadata and
build date included, goes through xml_escape. -/
def build_rss (items : List RssItem) (now : Str) : Str :=
  joinNl (
    [("<?xml version=\"1.0\" encoding=\"UTF-8\"?>").toList,
     ("<rss version=\"2.0\">").toList,
     ("<channel>").toList,
     ("<title>").toList ++ xmlEscape (("Nellis Auction Search Monitor").toList) ++ ("</title>").toList,
     ("<link>").toList ++ xmlEscape (("https://nellisauction.com/").toList) ++ ("</link>").toList,
     ("<description>").toList ++
       xmlEscape (("Alerts when your Nellis Auction search URLs have results.").toList) ++
       ("</description>").toList,
     ("<lastBuildDate>").toList ++ xmlEscape now ++ ("</lastBuildDate>").toList] ++
    (items.map itemParts).flatten ++
    [("</channel>").toList,
     ("</rss>").toList])

end Monitor

namespace Playwright

/-! Embedding of nellis_monitor_playwright.py (listing mode). -/

/-- Tail of ITEM_HREF_RE after the fixed /p/ prefix: the rest matches
.*/(\d+)$ iff it splits as mid ++ slash ++ digits with a nonempty digit
run and no newline in mid (Python . does not match a newline). -/
def tailSlashDigits : Str → Bool
  | [] => false
  | c :: rest =>
    (c = '/' && !rest.isEmpty && rest.all Char.isDigit) || (c ≠ '\n' && tailSlashDigits rest)

/-- ITEM_HREF_RE.match(href): anchored pattern /p/.*/(\d+)$. -/
def isItemHref (s : Str) : Bool :=
  match s with
  | '/' :: 'p' :: '/' :: rest => tailSlashDigits rest
  | _ => false

/-- The order-preserving first-occurrence de-duplication loop of
extract_listing_links (and, threaded across pages, of main).  seen is
the set of already-registered identities. -/
def dedupFirst (seen : List Str) : List Str → List Str
  | [] => []
  | l :: ls => if l ∈ seen then dedupFirst seen ls else l :: dedupFirst (l :: seen) ls

/-- extract_listing_links: hrefs are the href attributes of the page's
a[href^='/p/'] anchors (the null ones already dropped by filter(Boolean),
which only removes strings isItemHref rejects anyway); keep those
matching ITEM_HREF_RE, prefix the site origin, de-dupe preserving
order. -/
def extract_listing_links (hrefs : List Str) : List Str :=
  dedupFirst [] ((hrefs.filter isItemHref).map
    (fun h => ("https://nellisauction.com").toList ++ h))

/-- Case-insensitive literal match at the head of the text. -/
def startsWithCI : Str → Str → Bool
  | [], _ => true
  | _ :: _, [] => false
  | p :: ps, c :: cs => p.toLower = c.toLower && startsWithCI ps cs

/-- One word of ZERO_RESULTS_RE followed by \s+ and the rest:
literal word (IGNORECASE), then a forced maximal whitespace run. -/
def wordThenWs (w : Str) (l : Str) : Option Str :=
  if startsWithCI w l then
    let r := l.drop w.length
    if r.takeWhile Char.isWhitespace = [] then none
    else some (r.dropWhile Char.isWhitespace)
  else none

/-- Attempt to match ZERO_RESULTS_RE =
0\s+items\s+found\s+when\s+searching\s+for (IGNORECASE) at the head of
the text; the greedy whitespace runs are forced as in matchCountAt. -/
def matchZeroAt (l : Str) : Bool :=
  match wordThenWs (("0").toList) l with
  | none => false
  | some r₁ =>
    match wordThenWs (("items").toList) r₁ with
    | none => false
    | some r₂ =>
      match wordThenWs (("found").toList) r₂ with
      | none => false
      | some r₃ =>
        match wordThenWs (("when").toList) r₃ with
        | none => false
        | some r₄ =>
          match wordThenWs (("searching").toList) r₄ with
          | none => false
          | some r₅ => startsWithCI (("for").toList) r₅

/-- ZERO_RESULTS_RE.search(body_text): a match anywhere in the text. -/
def hasZeroResults : Str → Bool
  | [] => matchZeroAt []
  | c :: rest => matchZeroAt (c :: rest) || hasZeroResults rest

/-- Python str.strip(): drop whitespace at both ends. -/
def pyStrip (s : Str) : Str :=
  ((s.dropWhile Char.isWhitespace).reverse.dropWhile Char.isWhitespace).reverse

/-- The suffix after the first occurrence of the literal "/p/", when one
exists (the search step of listing_url.split("/p/", 1)). -/
def findAfterP : Str → Option Str
  | '/' :: 'p' :: '/' :: rest => some rest
  | _ :: rest => findAfterP rest
  | [] => none

/-- listing_url.split("/p/", 1)[-1]: the part after the first "/p/",
or the whole string when "/p/" does not occur. -/
def afterPSeg (s : Str) : Str :=
  (findAfterP s).getD s

/-- The title fallback of main (lines 312-314): slug after "/p/",
"-" replaced by " " (a single-character replace is a character map),
part before the first "/", stripped; "Nellis listing" when that is
empty (Python or on a falsy string). -/
def fallbackTitle (u : Str) : Str :=
  let slug := afterPSeg u
  let t := pyStrip (((slug.map (fun c => if c = '-' then ' ' else c)).takeWhile (fun c => c ≠ '/')))
  if t = [] then ("Nellis listing").toList else t

/-- titles_map.get(listing_url) followed by the if not title fallback
(an absent key and an empty string are both falsy). -/
def titleFor (titlesMap : List (Str × Str)) (u : Str) : Str :=
  match lkp u titlesMap with
  | some t => if t = [] then fallbackTitle u else t
  | none => fallbackTitle u

/-- normalize_img_url: strip, then make protocol-relative and
root-relative URLs absolute. -/
def normalize_img_url (src : Str) : Str :=
  let s := pyStrip src
  if s = [] then []
  else if (("//").toList).isPrefixOf s then ("https:").toList ++ s
  else if s.head? = some '/' then ("https://nellisauction.com").toList ++ s
  else s

/-- The per-query boundary data of one search page, as the browser
exposes it to the extraction code: the page URL and resolved URL, the
body inner text, the href attributes of the a[href^='/p/'] anchors, and
the raw results of the two in-page evaluate scripts (listing URL to raw
image src, listing URL to raw title text). -/
structure Page where
  url : Str
  finalUrl : Str
  bodyText : Str
  hrefs : List Str
  rawImages : List (Str × Str)
  rawTitles : List (Str × Str)

/-- extract_listing_images: the in-page script's map with every raw src
normalized. -/
def extract_listing_images (p : Page) : List (Str × Str) :=
  p.rawImages.map (fun kv => (kv.1, normalize_img_url kv.2))

/-- extract_listing_titles: the in-page script's map, values stripped,
entries whose stripped value is empty dropped. -/
def extract_listing_titles (p : Page) : List (Str × Str) :=
  (p.rawTitles.map (fun kv => (kv.1, pyStrip kv.2))).filter (fun kv => kv.2 ≠ [])

/-- One RSS item of the listing monitor. -/
structure RssItem where
  title : Str
  link : Str
  guid : Str
  description : Str
  pubDate : Str
  image_url : Str
deriving DecidableEq

/-- make_description_html: CDATA block whose text pieces go through
xml_escape; the image paragraph is present only for a truthy image
URL.  The f-string's leading and trailing newlines are removed by the
final strip. -/
def make_description_html (searchName listingUrl imageUrl : Str) : Str :=
  let imgHtml := if imageUrl = [] then [] else
    ("<p><img src=\"").toList ++ xmlEscape imageUrl ++
    ("\" alt=\"listing image\" style=\"max-width:100%; height:auto;\" /></p>").toList
  pyStrip (
    ('\n' :: ("<![CDATA[").toList) ++
    ('\n' :: ("<p><em>Matched search:</em> ").toList) ++ xmlEscape searchName ++ ("</p>").toList ++
    ('\n' :: ("<p><a href=\"").toList) ++ xmlEscape listingUrl ++ ("\">").toList ++
      xmlEscape listingUrl ++ ("</a></p>").toList ++
    ('\n' :: imgHtml) ++
    ('\n' :: ("]]>").toList) ++ ['\n'])

/-- The RSS item built for one not-yet-seen listing URL (main lines
310-326). -/
def mkItem (p : Page) (name : Str) (sid : Str → Str) (now : Str) (l : Str) : RssItem :=
  let img := (lkp l (extract_listing_images p)).getD []
  { title := titleFor (extract_listing_titles p) l
    link := l
    guid := sid l
    description := make_description_html name l img
    pubDate := now
    image_url := img }

/-- The inner for listing_url in listing_links loop: skip identities in
seen, otherwise register and append an item.  Returns the appended
items and the updated seen set. -/
def processLinks (p : Page) (name : Str) (sid : Str → Str) (now : Str) :
    List Str → List Str → List RssItem × List Str
  | seen, [] => ([], seen)
  | seen, l :: ls =>
    if l ∈ seen then processLinks p name sid now seen ls
    else
      let rest := processLinks p name sid now (l :: seen) ls
      (mkItem p name sid now l :: rest.1, rest.2)

/-- The zero-results placeholder item (only when
INCLUDE_ZERO_COUNT_IN_RSS). -/
def zeroItem (p : Page) (name : Str) (sid : Str → Str) (now : Str) : RssItem :=
  { title := name ++ (" â€” 0 results").toList
    link := if p.finalUrl = [] then p.url else p.finalUrl
    guid := sid (p.url ++ ("|0").toList)
    description := ("<![CDATA[<p>No results for this search.</p>]]>").toList
    pubDate := now
    image_url := [] }

/-- The per-search loop of main: a page whose body text matches the
zero-results phrase contributes nothing (or the placeholder when inc),
the seen set unchanged; otherwise its extracted listing links are
processed against the seen set carried across searches. -/
def runAux (inc : Bool) (names : List (Str × Str)) (sid : Str → Str) (now : Str)
    (seen : List Str) : List Page → List RssItem
  | [] => []
  | p :: ps =>
    let name := (lkp p.url names).getD p.url
    if hasZeroResults p.bodyText then
      (if inc then [zeroItem p name sid now] else []) ++ runAux inc names sid now seen ps
    else
      let pr := processLinks p name sid now seen (extract_listing_links p.hrefs)
      pr.1 ++ runAux inc names sid now pr.2 ps

/-- main's accumulation of rss_items over all searches, starting from an
empty seen set. -/
def main_run (inc : Bool) (names : List (Str × Str)) (sid : Str → Str) (now : Str)
    (pages : List Page) : List RssItem :=
  runAux inc names sid now [] pages

/-- The parts appended for one item by build_rss of
nellis_monitor_playwright.py: title, link, guid, enclosure URL and
pubDate go through xml_escape; the description is inserted verbatim
(it carries the pre-escaped CDATA block); the enclosure line appears
only for a truthy image_url. -/
def itemParts (it : RssItem) : List Str :=
  [("<item>").toList,
   ("<title>").toList ++ xmlEscape it.title ++ ("</title>").toList,
   ("<link>").toList ++ xmlEscape it.link ++ ("</link>").toList,
   ("<guid isPermaLink=\"false\">").toList ++ xmlEscape it.guid ++ ("</guid>").toList,
   ("<description>").toList ++ it.description ++ ("</description>").toList] ++
  (if it.image_url ≠ [] then
    [("<enclosure url=\"").toList ++ xmlEscape it.image_url ++ ("\" type=\"image/jpeg\" />").toList]
   else []) ++
  [("<pubDate>").toList ++ xmlEscape it.pubDate ++ ("</pubDate>").toList,
   ("</item>").toList]

/-- build_rss of nellis_monitor_playwright.py. -/
def build_rss (items : List RssItem) (now : Str) : Str :=
  joinNl (
    [("<?xml version=\"1.0\" encoding=\"UTF-8\"?>").toList,
     ("<rss version=\"2.0\">").toList,
     ("<channel>").toList,
     ("<title>").toList ++ xmlEscape (("Nellis Auction Listings").toList) ++ ("</title>").toList,
     ("<link>").toList ++ xmlEscape (("https://nellisauction.com/").toList) ++ ("</link>").toList,
     ("<description>").toList ++
       xmlEscape (("One RSS item per matching Nellis Auction listing (from your saved searches).").toList) ++
       ("</description>").toList,
     ("<lastBuildDate>").toList ++ xmlEscape now ++ ("</lastBuildDate>").toList] ++
    (items.map itemParts).flatten ++
    [("</channel>").toList,
     ("</rss>").toList])

end Playwright

namespace Fix

/-! Concrete fixtures for evaluating the embedding at specific inputs. -/

def q1 : Str := ("https://nellisauction.com/search?query=a").toList

def q2 : Str := ("https://nellisauction.com/search?query=b").toList

/-- A fetch environment: q1 resolves to a page announcing 3 items
found, every other URL fails. -/
def envC6 : Str → Monitor.FetchOutcome := fun u =>
  if u = q1 then
    Monitor.FetchOutcome.success (("Showing 3 items found for you").toList)
      (("https://nellisauction.com/search?query=a&r=1").toList)
  else Monitor.FetchOutcome.failure

def st0 : List (Str × Int) := [(q2, 7)]

def sid0 : Str → Str := fun s => s

def now0 : Str := ("Mon, 01 Jan 2024 00:00:00 +0000").toList

def date0 : Str := ("2024-01-01").toList

/-- A page showing the explicit zero-results phrase while listing-shaped
links (suggested items) are simultaneously present. -/
def pgZero : Playwright.Page :=
  { url := ("https://nellisauction.com/search?query=z").toList
    finalUrl := ("https://nellisauction.com/search?query=z").toList
    bodyText := ("Sorry, 0 items found when searching for \"z\". You may like these.").toList
    hrefs := [("/p/suggested-thing/99").toList]
    rawImages := []
    rawTitles := [] }

/-- A page whose query yields listings A and B. -/
def pgAB : Playwright.Page :=
  { url := ("https://nellisauction.com/search?query=ab").toList
    finalUrl := ("https://nellisauction.com/search?query=ab").toList
    bodyText := ("Results for ab").toList
    hrefs := [("/p/item-a/11").toList, ("/p/item-b/22").toList]
    rawImages := []
    rawTitles := [] }

/-- A page whose query yields listings B and C (B shared with pgAB). -/
def pgBC : Playwright.Page :=
  { url := ("https://nellisauction.com/search?query=bc").toList
    finalUrl := ("https://nellisauction.com/search?query=bc").toList
    bodyText := ("Results for bc").toList
    hrefs := [("/p/item-b/22").toList, ("/p/item-c/33").toList]
    rawImages := []
    rawTitles := [] }

def linkA : Str := ("https://nellisauction.com/p/item-a/11").toList

def linkB : Str := ("https://nellisauction.com/p/item-b/22").toList

def linkC : Str := ("https://nellisauction.com/p/item-c/33").toList

/-- A listing URL whose slug is cool-gadget-pro and numeric id 12345. -/
def uC8 : Str := ("https://nellisauction.com/p/cool-gadget-pro/12345").toList

/-- A concrete listing-mode feed item carrying pre-escaped markup in
its description. -/
def itC7 : Playwright.RssItem :=
  { title := ("Cool gadget").toList
    link := linkA
    guid := linkA
    description := ("<![CDATA[<p>markup stays raw</p>]]>").toList
    pubDate := now0
    image_url := [] }

end Fix

/-! Shared helper lemmas. -/

theorem lkp_setEntry (m : List (Str × Int)) (k k₁ : Str) (v : Int) :
    lkp k (setEntry m k₁ v) = if k₁ = k then some v else lkp k m := by
  induction m with
  | nil => simp [setEntry, lkp]
  | cons kv rest ih =>
    obtain ⟨a, b⟩ := kv
    by_cases hak : a = k₁
    · subst hak
      by_cases hk : a = k <;> simp [setEntry, lkp, hk]
    · by_cases hk : a = k
      · subst hk
        have : ¬ k₁ = a := fun h => hak h.symm
        simp [setEntry, lkp, hak, this]
      · simp [setEntry, lkp, hak, hk, ih]

theorem insBy_perm (le : α → α → Bool) (a : α) :
    ∀ l : List α, (Monitor.insBy le a l).Perm (a :: l)
  | [] => List.Perm.refl _
  | b :: bs => by
    by_cases h : le a b
    · simp [Monitor.insBy, h]
    · simp only [Monitor.insBy, if_neg h]
      exact ((insBy_perm le a bs).cons b).trans (List.Perm.swap a b bs)

theorem sortBy_perm (le : α → α → Bool) :
    ∀ l : List α, (Monitor.sortBy le l).Perm l
  | [] => List.Perm.refl _
  | a :: as => (insBy_perm le a (Monitor.sortBy le as)).trans ((sortBy_perm le as).cons a)

theorem lkp_perm {α : Type} {l₁ l₂ : List (Str × α)} (h : l₁.Perm l₂) (k : Str) :
    (l₁.map Prod.fst).Nodup → lkp k l₁ = lkp k l₂ := by
  induction h with
  | nil => intro _; rfl
  | cons x h ih =>
    intro nd
    obtain ⟨a, b⟩ := x
    have nd' := (List.nodup_cons.mp nd).2
    by_cases hak : a = k <;> simp [lkp, hak, ih nd']
  | swap x y l =>
    intro nd
    obtain ⟨a, b⟩ := x
    obtain ⟨c, d⟩ := y
    have hca : c ≠ a := by
      have := (List.nodup_cons.mp nd).1
      simp only [List.map_cons, List.mem_cons] at this
      exact fun h => this (Or.inl h)
    by_cases hck : c = k
    · subst hck
      have hak : ¬ a = c := fun h => hca h.symm
      simp [lkp, hak]
    · by_cases hak : a = k <;> simp [lkp, hak, hck]
  | trans h₁ h₂ ih₁ ih₂ =>
    intro nd
    have nd₂ := ((h₁.map Prod.fst).nodup_iff).mp nd
    exact (ih₁ nd).trans (ih₂ nd₂)

theorem convEntries_map_jint (l : List (Str × Int)) :
    Monitor.convEntries (l.map (fun kv => (kv.1, Monitor.Jval.jint kv.2))) = some l := by
  induction l with
  | nil => rfl
  | cons kv rest ih => simp [Monitor.convEntries, Monitor.jvalToInt, ih]

theorem load_save_eq_sorted (m : List (Str × Int)) :
    Monitor.load_state (Monitor.save_state m) =
      Monitor.sortBy (fun a b => Monitor.strLe a.1 b.1) m := by
  simp [Monitor.load_state, Monitor.save_state, convEntries_map_jint]

theorem convEntries_none {es : List (Str × Monitor.Jval)}
    (h : ∃ kv ∈ es, Monitor.jvalToInt kv.2 = none) : Monitor.convEntries es = none := by
  induction es with
  | nil =>
    obtain ⟨x, hx, _⟩ := h
    exact absurd hx (List.not_mem_nil x)
  | cons kv rest ih =>
    obtain ⟨a, b⟩ := kv
    obtain ⟨x, hx, hfail⟩ := h
    rcases List.mem_cons.mp hx with h1 | h2
    · rw [h1] at hfail
      simp [Monitor.convEntries, hfail]
    · cases hb : Monitor.jvalToInt b
      · simp [Monitor.convEntries, hb]
      · simp [Monitor.convEntries, hb, ih ⟨x, h2, hfail⟩]

/-! Claim theorems. -/

/-- C1: the alert decision is the pure function shouldAlert of
(last, current, policy); no alert when current = 0 whatever the policy;
under transition-only an alert iff last = 0 and current > 0; under
always an alert iff current > 0. -/
theorem c1_alert_decision (last : Int) (c : Nat) (p : Bool) :
    Monitor.shouldAlert last 0 p = false ∧
    (Monitor.shouldAlert last c true = true ↔ last = 0 ∧ 0 < c) ∧
    (Monitor.shouldAlert last c false = true ↔ 0 < c) := by
  refine ⟨by simp [Monitor.shouldAlert], ?_, ?_⟩ <;>
    by_cases h : 0 < c <;> simp [Monitor.shouldAlert, h]

/-- C4: a fetch failure (transport error, timeout, non-success status)
is the distinct marker (none, none); a fetched page without the count
pattern extracts count 0 with the resolved URL, a success; a successful
fetch never yields the failure marker. -/
theorem c4_absent_pattern_is_zero_not_failure (html u : Str) :
    Monitor.fetch_count Monitor.FetchOutcome.failure = (none, none) ∧
    (Monitor.findCount html = none →
      Monitor.fetch_count (Monitor.FetchOutcome.success html u) = (some 0, some u)) ∧
    (Monitor.fetch_count (Monitor.FetchOutcome.success html u)).1 ≠ none := by
  refine ⟨rfl, fun h => by simp [Monitor.fetch_count, h], ?_⟩
  cases hf : Monitor.findCount html <;> simp [Monitor.fetch_count, hf]

/-- Witness for C4 at a concrete page without the count pattern. -/
theorem c4_witness :
    Monitor.findCount (("<html>no counts here</html>").toList) = none ∧
    Monitor.fetch_count (Monitor.FetchOutcome.success (("<html>no counts here</html>").toList)
        (("https://nellisauction.com/search?query=x").toList)) =
      (some 0, some (("https://nellisauction.com/search?query=x").toList)) := by
  have h : Monitor.findCount (("<html>no counts here</html>").toList) = none := by decide
  exact ⟨h, (c4_absent_pattern_is_zero_not_failure _ _).2.1 h⟩

/-- C5: loading a missing or malformed state file yields the empty map
(and, being a total function, never raises); for every state map with
distinct query URLs and non-negative counts, saving then loading
round-trips every entry exactly (the loaded map agrees with the saved
one on every key). -/
theorem c5_state_roundtrip (m : List (Str × Int))
    (hnd : (m.map Prod.fst).Nodup) (_hnn : ∀ kv ∈ m, 0 ≤ kv.2) :
    Monitor.load_state Monitor.StateFile.missing = [] ∧
    Monitor.load_state Monitor.StateFile.badJson = [] ∧
    ∀ k, lkp k (Monitor.load_state (Monitor.save_state m)) = lkp k m := by
  refine ⟨rfl, rfl, fun k => ?_⟩
  rw [load_save_eq_sorted]
  exact lkp_perm (sortBy_perm (fun a b => Monitor.strLe a.1 b.1) m) k
    (((sortBy_perm (fun a b => Monitor.strLe a.1 b.1) m).map Prod.fst).nodup_iff.mpr hnd)

/-- Witness for C5 at a concrete two-entry state map. -/
theorem c5_witness :
    lkp (("b").toList) (Monitor.load_state (Monitor.save_state
        [((("b").toList : Str), (2 : Int)), ((("a").toList : Str), (1 : Int))])) =
      lkp (("b").toList) [((("b").toList : Str), (2 : Int)), ((("a").toList : Str), (1 : Int))] :=
  (c5_state_roundtrip [((("b").toList : Str), (2 : Int)), ((("a").toList : Str), (1 : Int))]
    (by decide) (by decide)).2.2 (("b").toList)

/-- C10: corruption handling is all-or-nothing: a state file whose JSON
fails to parse, or any single entry whose value fails int() conversion,
makes load_state return the empty map, discarding every entry including
well-formed ones. -/
theorem c10_corruption_all_or_nothing (es : List (Str × Monitor.Jval))
    (h : ∃ kv ∈ es, Monitor.jvalToInt kv.2 = none) :
    Monitor.load_state Monitor.StateFile.badJson = [] ∧
    Monitor.load_state (Monitor.StateFile.parsed es) = [] := by
  refine ⟨rfl, ?_⟩
  simp [Monitor.load_state, convEntries_none h]

/-- Witness for C10: a well-formed entry next to a null-valued one is
discarded with it. -/
theorem c10_witness :
    Monitor.load_state (Monitor.StateFile.parsed
      [((("good").toList : Str), Monitor.Jval.jint 5),
       ((("bad").toList : Str), Monitor.Jval.jnull)]) = [] :=
  (c10_corruption_all_or_nothing _ (by decide)).2


theorem check_once_state_notmem (env : Str → Monitor.FetchOutcome) (names : List (Str × Str))
    (sid : Str → Str) (now date : Str) (policy : Bool) (urls : List Str) :
    ∀ (state : List (Str × Int)) (u : Str), u ∉ urls →
      lkp u (Monitor.check_once env names sid now date policy urls state).state = lkp u state := by
  induction urls with
  | nil => intro state u _; rfl
  | cons url rest ih =>
    intro state u h
    have hne : url ≠ u := fun he => h (he ▸ List.mem_cons_self url rest)
    have hrest : u ∉ rest := fun hr => h (List.mem_cons_of_mem url hr)
    cases hp : Monitor.fetch_count (env url) with
    | mk oc fu =>
      cases oc with
      | none =>
        simp only [Monitor.check_once, hp]
        exact ih state u hrest
      | some c =>
        simp only [Monitor.check_once, hp]
        rw [ih _ u hrest, lkp_setEntry, if_neg hne]

theorem check_once_state_mem_some (env : Str → Monitor.FetchOutcome) (names : List (Str × Str))
    (sid : Str → Str) (now date : Str) (policy : Bool) (urls : List Str) :
    ∀ (state : List (Str × Int)) (u : Str) (c : Nat), urls.Nodup → u ∈ urls →
      (Monitor.fetch_count (env u)).1 = some c →
      lkp u (Monitor.check_once env names sid now date policy urls state).state = some (c : Int) := by
  induction urls with
  | nil => intro state u c _ hu _; exact absurd hu (List.not_mem_nil u)
  | cons url rest ih =>
    intro state u c hnd hu hc
    have hnr : url ∉ rest := (List.nodup_cons.mp hnd).1
    have hnd' : rest.Nodup := (List.nodup_cons.mp hnd).2
    rcases List.mem_cons.mp hu with he | hr
    · subst he
      cases hp : Monitor.fetch_count (env u) with
      | mk oc fu =>
        rw [hp] at hc
        simp only at hc
        subst hc
        simp only [Monitor.check_once, hp]
        rw [check_once_state_notmem env names sid now date policy rest _ u hnr,
            lkp_setEntry, if_pos rfl]
    · have hne : url ≠ u := fun he => (he ▸ hnr) hr
      cases hp : Monitor.fetch_count (env url) with
      | mk oc fu =>
        cases oc with
        | none =>
          simp only [Monitor.check_once, hp]
          exact ih state u c hnd' hr hc
        | some c₁ =>
          simp only [Monitor.check_once, hp]
          exact ih _ u c hnd' hr hc

theorem check_once_state_mem_none (env : Str → Monitor.FetchOutcome) (names : List (Str × Str))
    (sid : Str → Str) (now date : Str) (policy : Bool) (urls : List Str) :
    ∀ (state : List (Str × Int)) (u : Str), urls.Nodup → u ∈ urls →
      (Monitor.fetch_count (env u)).1 = none →
      lkp u (Monitor.check_once env names sid now date policy urls state).state = lkp u state := by
  induction urls with
  | nil => intro state u _ hu _; exact absurd hu (List.not_mem_nil u)
  | cons url rest ih =>
    intro state u hnd hu hc
    have hnr : url ∉ rest := (List.nodup_cons.mp hnd).1
    have hnd' : rest.Nodup := (List.nodup_cons.mp hnd).2
    rcases List.mem_cons.mp hu with he | hr
    · subst he
      cases hp : Monitor.fetch_count (env u) with
      | mk oc fu =>
        rw [hp] at hc
        simp only at hc
        subst hc
        simp only [Monitor.check_once, hp]
        exact check_once_state_notmem env names sid now date policy rest state u hnr
    · have hne : url ≠ u := fun he => (he ▸ hnr) hr
      cases hp : Monitor.fetch_count (env url) with
      | mk oc fu =>
        cases oc with
        | none =>
          simp only [Monitor.check_once, hp]
          exact ih state u hnd' hr hc
        | some c₁ =>
          simp only [Monitor.check_once, hp]
          rw [ih _ u hnd' hr hc, lkp_setEntry, if_neg hne]

/-- C6: per run, a query's persisted count is updated at most once, to
the latest successfully fetched value; a failed fetch leaves that
query's entry exactly as before the run; queries outside the run are
untouched. -/
theorem c6_state_update_frame (env : Str → Monitor.FetchOutcome) (names : List (Str × Str))
    (sid : Str → Str) (now date : Str) (policy : Bool) (urls : List Str)
    (state : List (Str × Int)) (u : Str) (hnd : urls.Nodup) :
    (∀ c : Nat, u ∈ urls → (Monitor.fetch_count (env u)).1 = some c →
      lkp u (Monitor.check_once env names sid now date policy urls state).state = some (c : Int)) ∧
    (u ∈ urls → (Monitor.fetch_count (env u)).1 = none →
      lkp u (Monitor.check_once env names sid now date policy urls state).state = lkp u state) ∧
    (u ∉ urls →
      lkp u (Monitor.check_once env names sid now date policy urls state).state = lkp u state) :=
  ⟨fun c hu hc => check_once_state_mem_some env names sid now date policy urls state u c hnd hu hc,
   fun hu hc => check_once_state_mem_none env names sid now date policy urls state u hnd hu hc,
   fun hu => check_once_state_notmem env names sid now date policy urls state u hu⟩

/-- Witness for C6: with q1 fetching 3 items and q2 failing, the run
over [q1, q2] stores 3 for q1 and leaves q2's prior entry 7 intact. -/
theorem c6_witness :
    lkp Fix.q1 (Monitor.check_once Fix.envC6 [] Fix.sid0 Fix.now0 Fix.date0 true
        [Fix.q1, Fix.q2] Fix.st0).state = some 3 ∧
    lkp Fix.q2 (Monitor.check_once Fix.envC6 [] Fix.sid0 Fix.now0 Fix.date0 true
        [Fix.q1, Fix.q2] Fix.st0).state = lkp Fix.q2 Fix.st0 :=
  ⟨(c6_state_update_frame Fix.envC6 [] Fix.sid0 Fix.now0 Fix.date0 true
      [Fix.q1, Fix.q2] Fix.st0 Fix.q1 (by decide)).1 3 (by decide) (by decide),
   (c6_state_update_frame Fix.envC6 [] Fix.sid0 Fix.now0 Fix.date0 true
      [Fix.q1, Fix.q2] Fix.st0 Fix.q2 (by decide)).2.1 (by decide) (by decide)⟩

theorem check_once_alert_of_absent (env : Str → Monitor.FetchOutcome) (names : List (Str × Str))
    (sid : Str → Str) (now date : Str) (urls : List Str) :
    ∀ (state : List (Str × Int)) (u : Str) (c : Nat), urls.Nodup → u ∈ urls →
      lkp u state = none → (Monitor.fetch_count (env u)).1 = some c → 0 < c →
      (u, c) ∈ (Monitor.check_once env names sid now date true urls state).alerts := by
  induction urls with
  | nil => intro state u c _ hu _ _ _; exact absurd hu (List.not_mem_nil u)
  | cons url rest ih =>
    intro state u c hnd hu habs hc hpos
    have hnr : url ∉ rest := (List.nodup_cons.mp hnd).1
    have hnd' : rest.Nodup := (List.nodup_cons.mp hnd).2
    rcases List.mem_cons.mp hu with he | hr
    · subst he
      cases hp : Monitor.fetch_count (env u) with
      | mk oc fu =>
        rw [hp] at hc
        simp only at hc
        subst hc
        have halert : Monitor.shouldAlert (Monitor.lastOf state u) c true = true := by
          simp [Monitor.lastOf, habs, Monitor.shouldAlert, hpos]
        simp [Monitor.check_once, hp, halert]
    · have hne : url ≠ u := fun he => (he ▸ hnr) hr
      cases hp : Monitor.fetch_count (env url) with
      | mk oc fu =>
        cases oc with
        | none =>
          simp only [Monitor.check_once, hp]
          exact ih state u c hnd' hr habs hc hpos
        | some c₁ =>
          have habs₁ : lkp u (setEntry state url c₁) = none := by
            rw [lkp_setEntry, if_neg hne]; exact habs
          simp only [Monitor.check_once, hp]
          exact List.mem_append_right _ (ih _ u c hnd' hr habs₁ hc hpos)

/-- C9: a query URL absent from the loaded state has last-observed
count 0, so under transition-only the first successful positive
observation of a never-before-seen query always emits an alert. -/
theorem c9_absent_query_alerts (env : Str → Monitor.FetchOutcome) (names : List (Str × Str))
    (sid : Str → Str) (now date : Str) (urls : List Str) (state : List (Str × Int))
    (u : Str) (c : Nat) (hnd : urls.Nodup) (hu : u ∈ urls) (habs : lkp u state = none)
    (hc : (Monitor.fetch_count (env u)).1 = some c) (hpos : 0 < c) :
    Monitor.lastOf state u = 0 ∧
    (u, c) ∈ (Monitor.check_once env names sid now date true urls state).alerts :=
  ⟨by simp [Monitor.lastOf, habs],
   check_once_alert_of_absent env names sid now date urls state u c hnd hu habs hc hpos⟩

/-- Witness for C9: q1 is absent from the prior state, its fetch finds
3 items, and the transition-only run alerts on it. -/
theorem c9_witness :
    Monitor.lastOf Fix.st0 Fix.q1 = 0 ∧
    (Fix.q1, 3) ∈ (Monitor.check_once Fix.envC6 [] Fix.sid0 Fix.now0 Fix.date0 true
      [Fix.q1, Fix.q2] Fix.st0).alerts :=
  c9_absent_query_alerts Fix.envC6 [] Fix.sid0 Fix.now0 Fix.date0 [Fix.q1, Fix.q2] Fix.st0
    Fix.q1 3 (by decide) (by decide) (by decide) (by decide) (by decide)


/-- C3: in listing mode a page whose body text contains the explicit
zero-results phrase contributes nothing to the run (placeholder option
disabled), whatever listing links the page also carries; the seen set
and the remaining queries are processed as if the page yielded no
listings. -/
theorem c3_zero_phrase_overrides (names : List (Str × Str)) (sid : Str → Str) (now : Str)
    (p : Playwright.Page) (seen : List Str) (rest : List Playwright.Page)
    (h : Playwright.hasZeroResults p.bodyText = true) :
    Playwright.runAux false names sid now seen (p :: rest) =
      Playwright.runAux false names sid now seen rest := by
  simp [Playwright.runAux, h]

/-- Witness for C3: a page with the zero-results phrase and a
listing-shaped suggested link produces an empty feed. -/
theorem c3_witness :
    Playwright.hasZeroResults Fix.pgZero.bodyText = true ∧
    Playwright.extract_listing_links Fix.pgZero.hrefs ≠ [] ∧
    Playwright.main_run false [] Fix.sid0 Fix.now0 [Fix.pgZero] = [] := by
  refine ⟨by decide, by decide, ?_⟩
  show Playwright.runAux false [] Fix.sid0 Fix.now0 [] [Fix.pgZero] = []
  rw [c3_zero_phrase_overrides [] Fix.sid0 Fix.now0 Fix.pgZero [] [] (by decide)]
  rfl

theorem findAfterP_site (tail : Str) :
    Playwright.findAfterP (("https://nellisauction.com").toList ++ '/' :: 'p' :: '/' :: tail) =
      some tail := rfl

theorem takeWhile_append_of_all {p : Char → Bool} (l r : Str) (h : ∀ c ∈ l, p c = true) :
    (l ++ r).takeWhile p = l ++ r.takeWhile p := by
  induction l with
  | nil => simp
  | cons c cs ih =>
    have hc : p c = true := h c (List.mem_cons_self c cs)
    simp only [List.cons_append, List.takeWhile_cons, hc, if_true]
    rw [ih (fun x hx => h x (List.mem_cons_of_mem c hx))]

theorem fallbackTitle_ne_nil (u : Str) : Playwright.fallbackTitle u ≠ [] := by
  simp only [Playwright.fallbackTitle]
  split
  · decide
  · assumption

theorem fallbackTitle_shape (mid ds : Str) (hmid : '/' ∉ mid) :
    Playwright.fallbackTitle
        (("https://nellisauction.com").toList ++ '/' :: 'p' :: '/' :: (mid ++ '/' :: ds)) =
      (if Playwright.pyStrip (mid.map (fun c => if c = '-' then ' ' else c)) = []
       then ("Nellis listing").toList
       else Playwright.pyStrip (mid.map (fun c => if c = '-' then ' ' else c))) := by
  have hmap : ∀ c ∈ mid.map (fun c => if c = '-' then ' ' else c), decide (c ≠ '/') = true := by
    intro c hc
    obtain ⟨c₀, hc₀, hcc⟩ := List.mem_map.mp hc
    rw [decide_eq_true_eq]
    intro he
    by_cases hd : c₀ = '-'
    · rw [hd] at hcc
      simp only [if_pos rfl] at hcc
      exact absurd (hcc.trans he) (by decide)
    · rw [if_neg hd] at hcc
      exact hmid ((hcc.trans he) ▸ hc₀)
  unfold Playwright.fallbackTitle Playwright.afterPSeg
  rw [findAfterP_site]
  dsimp only [Option.getD]
  rw [List.map_append, List.map_cons]
  rw [takeWhile_append_of_all _ _ hmap]
  simp

/-- C8: for a listing URL of the canonical shape (site origin, /p/,
slug without inner slashes, a slash, numeric id) whose structural title
lookup yields nothing, the title falls back to the slug segment before
the numeric id with hyphens replaced by spaces (stripped, defaulting to
"Nellis listing" when that leaves nothing), and it is never the empty
string. -/
theorem c8_title_fallback_from_slug (tm : List (Str × Str)) (mid ds u : Str)
    (hmid : '/' ∉ mid) (_hds : ds ≠ [] ∧ ds.all Char.isDigit)
    (hu : u = ("https://nellisauction.com").toList ++ '/' :: 'p' :: '/' :: (mid ++ '/' :: ds))
    (habs : lkp u tm = none) :
    Playwright.titleFor tm u = Playwright.fallbackTitle u ∧
    Playwright.fallbackTitle u =
      (if Playwright.pyStrip (mid.map (fun c => if c = '-' then ' ' else c)) = []
       then ("Nellis listing").toList
       else Playwright.pyStrip (mid.map (fun c => if c = '-' then ' ' else c))) ∧
    Playwright.titleFor tm u ≠ [] := by
  have h1 : Playwright.titleFor tm u = Playwright.fallbackTitle u := by
    simp [Playwright.titleFor, habs]
  refine ⟨h1, ?_, h1 ▸ fallbackTitle_ne_nil u⟩
  subst hu
  exact fallbackTitle_shape mid ds hmid

/-- Witness for C8 at a concrete listing URL with an empty titles map. -/
theorem c8_witness :
    Playwright.titleFor [] Fix.uC8 = ("cool gadget pro").toList ∧
    Playwright.titleFor [] Fix.uC8 ≠ [] := by
  have h := c8_title_fallback_from_slug [] (("cool-gadget-pro").toList) (("12345").toList)
    Fix.uC8 (by decide) (by decide) (by decide) rfl
  exact ⟨by rw [h.1, h.2.1]; decide, h.2.2⟩

theorem processLinks_map_link (p : Playwright.Page) (name : Str) (sid : Str → Str) (now : Str) :
    ∀ (ls seen : List Str),
      (Playwright.processLinks p name sid now seen ls).1.map Playwright.RssItem.link =
        Playwright.dedupFirst seen ls := by
  intro ls
  induction ls with
  | nil => intro seen; rfl
  | cons l ls ih =>
    intro seen
    by_cases h : l ∈ seen
    · simp [Playwright.processLinks, Playwright.dedupFirst, h, ih]
    · simp [Playwright.processLinks, Playwright.dedupFirst, h, ih, Playwright.mkItem]

theorem processLinks_seen_mem (p : Playwright.Page) (name : Str) (sid : Str → Str) (now : Str) :
    ∀ (ls seen : List Str) (a : Str),
      a ∈ (Playwright.processLinks p name sid now seen ls).2 ↔ (a ∈ seen ∨ a ∈ ls) := by
  intro ls
  induction ls with
  | nil => intro seen a; simp [Playwright.processLinks]
  | cons l ls ih =>
    intro seen a
    by_cases h : l ∈ seen
    · rw [show Playwright.processLinks p name sid now seen (l :: ls) =
          Playwright.processLinks p name sid now seen ls by simp [Playwright.processLinks, h]]
      rw [ih seen a]
      simp only [List.mem_cons]
      constructor
      · rintro (hs | hl)
        · exact Or.inl hs
        · exact Or.inr (Or.inr hl)
      · rintro (hs | hal | hl)
        · exact Or.inl hs
        · exact Or.inl (hal ▸ h)
        · exact Or.inr hl
    · have hstep : (Playwright.processLinks p name sid now seen (l :: ls)).2 =
          (Playwright.processLinks p name sid now (l :: seen) ls).2 := by
        simp [Playwright.processLinks, h]
      rw [hstep, ih (l :: seen) a]
      simp only [List.mem_cons]
      constructor
      · rintro ((hal | hs) | hl)
        · exact Or.inr (Or.inl hal)
        · exact Or.inl hs
        · exact Or.inr (Or.inr hl)
      · rintro (hs | hal | hl)
        · exact Or.inl (Or.inr hs)
        · exact Or.inl (Or.inl hal)
        · exact Or.inr hl

theorem dedupFirst_congr : ∀ (l s₁ s₂ : List Str), (∀ a, a ∈ s₁ ↔ a ∈ s₂) →
    Playwright.dedupFirst s₁ l = Playwright.dedupFirst s₂ l
  | [], _, _, _ => rfl
  | x :: xs, s₁, s₂, h => by
    by_cases hx : x ∈ s₁
    · simp [Playwright.dedupFirst, hx, (h x).mp hx, dedupFirst_congr xs s₁ s₂ h]
    · have hx₂ : x ∉ s₂ := fun hh => hx ((h x).mpr hh)
      simp only [Playwright.dedupFirst, if_neg hx, if_neg hx₂]
      rw [dedupFirst_congr xs (x :: s₁) (x :: s₂) (fun a => by simp [List.mem_cons, h a])]

theorem dedupFirst_append : ∀ (xs ys s s₂ : List Str), (∀ a, a ∈ s₂ ↔ a ∈ s ∨ a ∈ xs) →
    Playwright.dedupFirst s (xs ++ ys) =
      Playwright.dedupFirst s xs ++ Playwright.dedupFirst s₂ ys
  | [], ys, s, s₂, h => by
    simp only [List.nil_append, Playwright.dedupFirst]
    exact (dedupFirst_congr ys s s₂ (fun a => by simpa using (h a).symm)).symm ▸ rfl
  | x :: xs, ys, s, s₂, h => by
    by_cases hx : x ∈ s
    · simp only [List.cons_append, Playwright.dedupFirst, if_pos hx]
      refine dedupFirst_append xs ys s s₂ (fun a => ?_)
      rw [h a, List.mem_cons]
      constructor
      · rintro (hs | hax | hxs)
        · exact Or.inl hs
        · exact Or.inl (hax ▸ hx)
        · exact Or.inr hxs
      · rintro (hs | hxs)
        · exact Or.inl hs
        · exact Or.inr (Or.inr hxs)
    · simp only [List.cons_append, Playwright.dedupFirst, if_neg hx, List.cons_append]
      exact congrArg (x :: ·) (dedupFirst_append xs ys (x :: s) s₂ (fun a => by
        rw [h a, List.mem_cons, List.mem_cons]
        constructor
        · rintro (hs | hax | hxs)
          · exact Or.inl (Or.inr hs)
          · exact Or.inl (Or.inl hax)
          · exact Or.inr hxs
        · rintro ((hax | hs) | hxs)
          · exact Or.inr (Or.inl hax)
          · exact Or.inl hs
          · exact Or.inr (Or.inr hxs)))

theorem dedupFirst_nodup_and_fresh : ∀ (l seen : List Str),
    (Playwright.dedupFirst seen l).Nodup ∧ ∀ a ∈ Playwright.dedupFirst seen l, a ∉ seen
  | [], seen => ⟨List.nodup_nil, by simp [Playwright.dedupFirst]⟩
  | x :: xs, seen => by
    by_cases hx : x ∈ seen
    · simpa [Playwright.dedupFirst, hx] using dedupFirst_nodup_and_fresh xs seen
    · have ih := dedupFirst_nodup_and_fresh xs (x :: seen)
      simp only [Playwright.dedupFirst, if_neg hx]
      refine ⟨List.nodup_cons.mpr ⟨fun hmem => (ih.2 x hmem) (List.mem_cons_self x seen), ih.1⟩, ?_⟩
      intro a ha
      rcases List.mem_cons.mp ha with rfl | hm
      · exact hx
      · exact fun hs => (ih.2 a hm) (List.mem_cons_of_mem x hs)

theorem runAux_links (names : List (Str × Str)) (sid : Str → Str) (now : Str) :
    ∀ (pages : List Playwright.Page) (seen : List Str),
      (Playwright.runAux false names sid now seen pages).map Playwright.RssItem.link =
        Playwright.dedupFirst seen
          ((pages.map (fun p => if Playwright.hasZeroResults p.bodyText then []
                                else Playwright.extract_listing_links p.hrefs)).flatten) := by
  intro pages
  induction pages with
  | nil => intro seen; rfl
  | cons p ps ih =>
    intro seen
    by_cases hz : Playwright.hasZeroResults p.bodyText
    · simp only [Playwright.runAux, hz, if_true, Bool.false_eq_true, if_false,
        List.nil_append, List.map_cons, List.flatten_cons]
      rw [ih seen]
    · simp only [Playwright.runAux, hz, Bool.false_eq_true, if_false,
        List.map_cons, List.flatten_cons, List.map_append]
      rw [processLinks_map_link, ih]
      exact (dedupFirst_append _ _ seen _
        (fun a => processLinks_seen_mem p _ sid now _ seen a)).symm

/-- C2: in a listing-mode run the feed's listing URLs are exactly the
first-occurrence de-duplication of the per-query extracted links in the
fixed query order, hence each listing identity appears at most once;
and for the concrete scenario of a zero-results query followed by
queries yielding [A, B] and [B, C], the feed links are [A, B, C]. -/
theorem c2_dedup_across_queries (names : List (Str × Str)) (sid : Str → Str) (now : Str)
    (pages : List Playwright.Page) :
    ((Playwright.main_run false names sid now pages).map Playwright.RssItem.link =
      Playwright.dedupFirst []
        ((pages.map (fun p => if Playwright.hasZeroResults p.bodyText then []
                              else Playwright.extract_listing_links p.hrefs)).flatten)) ∧
    ((Playwright.main_run false names sid now pages).map Playwright.RssItem.link).Nodup ∧
    (Playwright.main_run false [] Fix.sid0 Fix.now0 [Fix.pgZero, Fix.pgAB, Fix.pgBC]).map
        Playwright.RssItem.link = [Fix.linkA, Fix.linkB, Fix.linkC] := by
  refine ⟨runAux_links names sid now pages [], ?_, ?_⟩
  · have h := runAux_links names sid now pages []
    rw [show Playwright.main_run false names sid now pages =
        Playwright.runAux false names sid now [] pages from rfl, h]
    exact (dedupFirst_nodup_and_fresh _ []).1
  · decide

theorem countLt_append (a b : Str) : countLt (a ++ b) = countLt a + countLt b := by
  induction a with
  | nil => simp [countLt]
  | cons c cs ih =>
    simp only [List.cons_append, countLt, List.append_eq, ih]
    omega

theorem countLt_escChar (c : Char) : countLt (escChar c) = 0 := by
  by_cases h₁ : c = '&'
  · simp only [escChar, if_pos h₁]; decide
  · by_cases h₂ : c = '<'
    · simp only [escChar, if_neg h₁, if_pos h₂]; decide
    · by_cases h₃ : c = '>'
      · simp only [escChar, if_neg h₁, if_neg h₂, if_pos h₃]; decide
      · simp [escChar, h₁, h₂, h₃, countLt]

theorem countLt_escape : ∀ s : Str, countLt (xmlEscape s) = 0
  | [] => rfl
  | c :: rest => by
    simp [xmlEscape, countLt_append, countLt_escChar c, countLt_escape rest]

theorem countLt_joinNl : ∀ parts : List Str, countLt (joinNl parts) = (parts.map countLt).sum
  | [] => rfl
  | [p] => by simp [joinNl]
  | p :: q :: ps => by
    have ih := countLt_joinNl (q :: ps)
    have hnl : (if ('\n' : Char) = '<' then (1 : Nat) else 0) = 0 := by decide
    simp only [joinNl, countLt_append, countLt, ih, List.map_cons, List.sum_cons, hnl]
    omega

theorem monitor_itemParts_count (it : Monitor.RssItem) :
    ((Monitor.itemParts it).map countLt).sum = 12 := by
  simp [Monitor.itemParts, countLt_append, countLt_escape, countLt]

theorem playwright_itemParts_count (it : Playwright.RssItem) :
    ((Playwright.itemParts it).map countLt).sum =
      12 + countLt it.description + (if it.image_url ≠ [] then 1 else 0) := by
  by_cases h : it.image_url = []
  · simp [Playwright.itemParts, h, countLt_append, countLt_escape, countLt]
    omega
  · simp [Playwright.itemParts, h, countLt_append, countLt_escape, countLt]
    omega

theorem monitor_flatten_count : ∀ items : List Monitor.RssItem,
    (((items.map Monitor.itemParts).flatten).map countLt).sum = 12 * items.length
  | [] => rfl
  | it :: rest => by
    simp only [List.map_cons, List.flatten_cons, List.map_append, List.sum_append,
      monitor_itemParts_count, monitor_flatten_count rest, List.length_cons]
    ring

theorem playwright_flatten_count : ∀ items : List Playwright.RssItem,
    (((items.map Playwright.itemParts).flatten).map countLt).sum =
      (items.map (fun j => 12 + countLt j.description +
        (if j.image_url ≠ [] then 1 else 0))).sum
  | [] => rfl
  | it :: rest => by
    simp only [List.map_cons, List.flatten_cons, List.map_append, List.sum_append,
      playwright_itemParts_count, playwright_flatten_count rest, List.sum_cons]

theorem joinNl_part_between : ∀ (parts : List Str) (part : Str), part ∈ parts → part <:+: joinNl parts
  | [], part, h => absurd h (List.not_mem_nil part)
  | [p], part, h => by
    rw [List.mem_singleton.mp h]
    exact ⟨[], [], by simp [joinNl]⟩
  | p :: q :: ps, part, h => by
    rcases List.mem_cons.mp h with he | hm
    · exact ⟨[], '\n' :: joinNl (q :: ps), by simp [joinNl, he]⟩
    · obtain ⟨s, t, hst⟩ := joinNl_part_between (q :: ps) part hm
      exact ⟨p ++ '\n' :: s, t, by simp [joinNl, ← hst]⟩

theorem monitor_build_rss_count (items : List Monitor.RssItem) (now : Str) :
    countLt (Monitor.build_rss items now) = 13 + 12 * items.length := by
  rw [Monitor.build_rss, countLt_joinNl]
  simp only [List.map_append, List.sum_append, monitor_flatten_count]
  simp [countLt_append, countLt_escape, countLt]
  omega

theorem playwright_build_rss_count (items : List Playwright.RssItem) (now : Str) :
    countLt (Playwright.build_rss items now) =
      13 + (items.map (fun j => 12 + countLt j.description +
        (if j.image_url ≠ [] then 1 else 0))).sum := by
  rw [Playwright.build_rss, countLt_joinNl]
  simp only [List.map_append, List.sum_append, playwright_flatten_count]
  simp [countLt_append, countLt_escape, countLt]
  omega

theorem playwright_desc_verbatim {it : Playwright.RssItem} {items : List Playwright.RssItem}
    (hm : it ∈ items) (now : Str) :
    it.description <:+: Playwright.build_rss items now := by
  have hpart : (("<description>").toList ++ it.description ++ ("</description>").toList) ∈
      Playwright.itemParts it := by
    simp [Playwright.itemParts]
  have hflat : (("<description>").toList ++ it.description ++ ("</description>").toList) ∈
      (items.map Playwright.itemParts).flatten :=
    List.mem_flatten.mpr ⟨Playwright.itemParts it, List.mem_map_of_mem _ hm, hpart⟩
  have hd : it.description <:+:
      (("<description>").toList ++ it.description ++ ("</description>").toList) :=
    ⟨("<description>").toList, ("</description>").toList, by simp⟩
  refine hd.trans (joinNl_part_between _ _ ?_)
  refine List.mem_append.mpr (Or.inl ?_)
  exact List.mem_append.mpr (Or.inr hflat)

/-- C7: build_rss escapes the format's reserved characters in every
text field: in scalar mode the raw left-angle count of the document is
a constant of the item count alone, whatever values the fields hold
(every field escaped, including the description); in listing mode the
description's raw left-angles survive (inserted verbatim, proved also
as a substring occurrence) while all other fields contribute none. -/
theorem c7_field_escaping (itemsS : List Monitor.RssItem) (itemsL : List Playwright.RssItem)
    (now : Str) (it : Playwright.RssItem) :
    countLt (Monitor.build_rss itemsS now) = 13 + 12 * itemsS.length ∧
    countLt (Playwright.build_rss itemsL now) =
      13 + (itemsL.map (fun j => 12 + countLt j.description +
        (if j.image_url ≠ [] then 1 else 0))).sum ∧
    (it ∈ itemsL → it.description <:+: Playwright.build_rss itemsL now) :=
  ⟨monitor_build_rss_count itemsS now, playwright_build_rss_count itemsL now,
   fun hm => playwright_desc_verbatim hm now⟩

/-- Witness for C7: a concrete pre-escaped description appears verbatim
inside the listing-mode document. -/
theorem c7_witness :
    Fix.itC7.description <:+: Playwright.build_rss [Fix.itC7] Fix.now0 :=
  (c7_field_escaping [] [Fix.itC7] Fix.now0 Fix.itC7).2.2 (by simp)
